import Mathlib

/-!
Verification of the hexagon_normalised spatiotemporal aggregation pipeline.

We give a shallow embedding of the core computations of the repository
(DistributionView.tsx, ControlPanel.tsx, the HexagonMap.tsx variants and the
unnamed part files): temporal filtering, per-cell aggregation, the ratio
policies, z-score normalisation via the Welford fold, the pricing lookup,
the time-sample sequence and the histogram builder.

Modelling conventions: JavaScript floating point numbers are the rationals,
and the reals where Math.sqrt and Math.log occur; timestamps (Date.getTime)
are integers in milliseconds; JS Map and Set are association lists and
duplicate-free lists kept in insertion order, matching JS iteration order;
the external h3 indexer (latLngToCell, cellToLatLng) is an arbitrary
function parameter, and gridDisk, which may throw, returns an Option.
-/

namespace HexNorm

/-- Opaque hexagon cell identifier produced by the external indexer. -/
abbrev CellId := ℕ

/-- DemandEvent: a trip request with timestamp (ms) and coordinates. -/
structure EventData where
  timestamp : ℤ
  latitude : ℚ
  longitude : ℚ
deriving DecidableEq

/-- SupplyRecord: a vehicle available on [startTime, endTime] at a location. -/
structure SupplyData where
  startTime : ℤ
  endTime : ℤ
  latitude : ℚ
  longitude : ℚ
deriving DecidableEq

/-- MultiplierRule: threshold and price multiplier. -/
structure MultiplierData (α : Type) where
  minRatio : α
  multiplier : α
deriving DecidableEq

/-- JS `map.get(k) || 0` on a Map<CellId, number> kept as an insertion-ordered
association list. -/
def mapGet (m : List (CellId × ℕ)) (k : CellId) : ℕ :=
  ((m.find? fun p => decide (p.1 = k)).map Prod.snd).getD 0

/-- JS `map.set(k, (map.get(k) || 0) + 1)`: update in place, else append. -/
def bump (m : List (CellId × ℕ)) (k : CellId) : List (CellId × ℕ) :=
  if (m.find? fun p => decide (p.1 = k)).isSome then
    m.map fun p => if p.1 = k then (p.1, p.2 + 1) else p
  else m ++ [(k, 1)]

/-- JS `rawRatioMap.get(k)` (undefined as none). -/
def rmapGet (m : List (CellId × ℚ)) (k : CellId) : Option ℚ :=
  (m.find? fun p => decide (p.1 = k)).map Prod.snd

/-- JS `rawRatioMap.set(k, v)`. -/
def rmapSet (m : List (CellId × ℚ)) (k : CellId) (v : ℚ) : List (CellId × ℚ) :=
  if (m.find? fun p => decide (p.1 = k)).isSome then
    m.map fun p => if p.1 = k then (p.1, v) else p
  else m ++ [(k, v)]

/-- JS `set.add(k)` on a Set<CellId>: append if not present. -/
def addId (s : List CellId) (k : CellId) : List CellId :=
  if k ∈ s then s else s ++ [k]

/-- computeRawRatio (HexagonMap.tsx lines 1032-1037, part_001 lines 128-133):
supply 0 gives 1 when demand is positive, else 0; otherwise demand/supply. -/
def computeRawRatio (journeys vehicles : ℕ) : ℚ :=
  if vehicles = 0 then (if 0 < journeys then 1 else 0)
  else (journeys : ℚ) / (vehicles : ℚ)

/-- JS division where x/0 yields Infinity or NaN, modelled as none. -/
def jsDivQ (a b : ℚ) : Option ℚ :=
  if b = 0 then none else some (a / b)

/-- computeRawRatio with the JS division made explicit, to state that the
supply-zero guard keeps every result finite. -/
def computeRawRatioJS (journeys vehicles : ℕ) : Option ℚ :=
  if vehicles = 0 then some (if 0 < journeys then 1 else 0)
  else jsDivQ (journeys : ℚ) (vehicles : ℚ)

/-- computeLogRatio, HexagonMap.tsx lines 440-444: log(j+1)/log(v+1), and
Infinity (modelled none) when log(v+1) = 0; callers guard supply = 0. -/
noncomputable def computeLogRatio (journeys vehicles : ℕ) : Option ℝ :=
  if Real.log ((vehicles : ℝ) + 1) = 0 then none
  else some (Real.log ((journeys : ℝ) + 1) / Real.log ((vehicles : ℝ) + 1))

/-- computeLogRatio, HexagonMap.tsx lines 102-111: variant with its own
vehicles = 0 special case and a log(v+1) = 0 safety branch returning 1. -/
noncomputable def computeLogRatioGuarded (journeys vehicles : ℕ) : Option ℝ :=
  if vehicles = 0 then some (if 0 < journeys then 1 else 0)
  else if Real.log ((vehicles : ℝ) + 1) = 0 then some 1
  else some (Real.log ((journeys : ℝ) + 1) / Real.log ((vehicles : ℝ) + 1))

/-- The JS comparator `(a, b) => b.minRatio - a.minRatio`: a before b when
b.minRatio ≤ a.minRatio, i.e. descending order of minRatio. -/
def mdGE {α : Type} [LinearOrderedField α] (a b : MultiplierData α) : Prop :=
  b.minRatio ≤ a.minRatio

instance {α : Type} [LinearOrderedField α] : DecidableRel (@mdGE α _) :=
  fun a b => inferInstanceAs (Decidable (b.minRatio ≤ a.minRatio))

instance {α : Type} [LinearOrderedField α] : IsTotal (MultiplierData α) mdGE :=
  ⟨fun a b => le_total b.minRatio a.minRatio⟩

instance {α : Type} [LinearOrderedField α] : IsTrans (MultiplierData α) mdGE :=
  ⟨fun _ _ _ hab hbc => le_trans hbc hab⟩

/-- getMultiplier, DistributionView.tsx lines 114-122 and ControlPanel.tsx
lines 608-616: empty table gives 1; otherwise sort a copy descending by
minRatio, return the multiplier of the first rule with minRatio ≤ ratio,
falling back to the last (smallest-minRatio) rule, `?? 1`. -/
def getMultiplier {α : Type} [LinearOrderedField α]
    (multiplierData : List (MultiplierData α)) (ratio : α) : α :=
  if multiplierData.length = 0 then 1
  else
    let sorted := List.insertionSort mdGE multiplierData
    match sorted.find? (fun e => decide (e.minRatio ≤ ratio)) with
    | some e => e.multiplier
    | none => ((sorted.getLast?).map MultiplierData.multiplier).getD 1

/-- getMultiplier, HexagonMap.tsx lines 1040-1054 and part_001 lines 136-150:
same lookup, but the fallback is `sorted[sorted.length - 1]?.multiplier || 1`,
so a zero (falsy) multiplier becomes 1. -/
def getMultiplierHM {α : Type} [LinearOrderedField α]
    (multiplierData : List (MultiplierData α)) (ratio : α) : α :=
  if multiplierData.length = 0 then 1
  else
    let sorted := List.insertionSort mdGE multiplierData
    match sorted.find? (fun e => decide (e.minRatio ≤ ratio)) with
    | some e => e.multiplier
    | none =>
      match sorted.getLast? with
      | some e => if e.multiplier = 0 then 1 else e.multiplier
      | none => 1

/-- The last element of a list with getLast? = some e is a member. -/
lemma mem_of_getLast?_eq_some {β : Type} {l : List β} {e : β}
    (h : l.getLast? = some e) : e ∈ l := by
  have hx : e ∈ l.getLast? := by rw [h]; rfl
  obtain ⟨h1, h2⟩ := List.mem_getLast?_eq_getLast hx
  rw [h2]
  exact List.getLast_mem h1

/-- In a descending-sorted rule list, the rule found by the linear scan has
the largest minRatio among the rules whose minRatio is below the ratio. -/
lemma find_max_of_sorted {α : Type} [LinearOrderedField α] {ratio : α} :
    ∀ {l : List (MultiplierData α)}, l.Sorted mdGE →
    ∀ {e : MultiplierData α},
      l.find? (fun e => decide (e.minRatio ≤ ratio)) = some e →
    ∀ x ∈ l, x.minRatio ≤ ratio → x.minRatio ≤ e.minRatio := by
  intro l
  induction l with
  | nil => intro _ e he; simp at he
  | cons a t ih =>
    intro hs e he x hx hxr
    rw [List.sorted_cons] at hs
    by_cases hpa : a.minRatio ≤ ratio
    · rw [List.find?_cons_of_pos _ (by simpa using hpa)] at he
      cases he
      rcases List.mem_cons.1 hx with rfl | hxt
      · exact le_refl _
      · exact hs.1 x hxt
    · rw [List.find?_cons_of_neg _ (by simpa using hpa)] at he
      rcases List.mem_cons.1 hx with rfl | hxt
      · exact absurd hxr hpa
      · exact ih hs.2 he x hxt hxr

/-- In a descending-sorted rule list, the last rule has the smallest minRatio. -/
lemma getLast_min_of_sorted {α : Type} [LinearOrderedField α] :
    ∀ {l : List (MultiplierData α)}, l.Sorted mdGE →
    ∀ {e : MultiplierData α}, l.getLast? = some e →
    ∀ x ∈ l, e.minRatio ≤ x.minRatio := by
  intro l
  induction l with
  | nil => intro _ e he; simp at he
  | cons a t ih =>
    intro hs e he x hx
    rw [List.sorted_cons] at hs
    cases t with
    | nil =>
      simp at he
      subst he
      simp at hx
      subst hx
      exact le_refl _
    | cons b t2 =>
      rw [List.getLast?_cons_cons] at he
      have hemem : e ∈ b :: t2 := mem_of_getLast?_eq_some he
      rcases List.mem_cons.1 hx with rfl | hxt
      · exact hs.1 e hemem
      · exact ih hs.2 he x hxt

/-- Both pricing lookups, when some rule is at or below the ratio: they return
the multiplier of a rule whose minRatio is maximal among those ≤ ratio. -/
lemma getMultiplier_of_hit {α : Type} [LinearOrderedField α]
    (table : List (MultiplierData α)) (ratio : α)
    (h : ∃ r ∈ table, r.minRatio ≤ ratio) :
    ∃ r ∈ table, r.minRatio ≤ ratio ∧
      (∀ x ∈ table, x.minRatio ≤ ratio → x.minRatio ≤ r.minRatio) ∧
      getMultiplier table ratio = r.multiplier ∧
      getMultiplierHM table ratio = r.multiplier := by
  obtain ⟨r0, hr0, hr0le⟩ := h
  have hne : table.length ≠ 0 := by
    cases table with
    | nil => simp at hr0
    | cons a t => simp
  have hperm : List.Perm (List.insertionSort mdGE table) table := List.perm_insertionSort _ _
  have hsorted : (List.insertionSort mdGE table).Sorted mdGE :=
    List.sorted_insertionSort _ _
  cases hfind : (List.insertionSort mdGE table).find?
      (fun e => decide (e.minRatio ≤ ratio)) with
  | none =>
    exfalso
    rw [List.find?_eq_none] at hfind
    exact hfind r0 (hperm.mem_iff.2 hr0) (by simpa using hr0le)
  | some e =>
    refine ⟨e, hperm.mem_iff.1 (List.mem_of_find?_eq_some hfind), ?_, ?_, ?_, ?_⟩
    · simpa using List.find?_some hfind
    · intro x hx hxr
      exact find_max_of_sorted hsorted hfind x (hperm.mem_iff.2 hx) hxr
    · unfold getMultiplier
      rw [if_neg hne]
      simp only [hfind]
    · unfold getMultiplierHM
      rw [if_neg hne]
      simp only [hfind]

/-- Both pricing lookups, when the ratio is below every threshold: the rule
with the smallest minRatio supplies the result, except that the HexagonMap
variant turns a zero multiplier into 1 (JS `|| 1`). -/
lemma getMultiplier_of_miss {α : Type} [LinearOrderedField α]
    (table : List (MultiplierData α)) (ratio : α) (hne : table ≠ [])
    (h : ∀ r ∈ table, ratio < r.minRatio) :
    ∃ r ∈ table, (∀ x ∈ table, r.minRatio ≤ x.minRatio) ∧
      getMultiplier table ratio = r.multiplier ∧
      getMultiplierHM table ratio = (if r.multiplier = 0 then 1 else r.multiplier) := by
  have hlen : table.length ≠ 0 := by simpa [List.length_eq_zero] using hne
  have hperm : List.Perm (List.insertionSort mdGE table) table := List.perm_insertionSort _ _
  have hsorted : (List.insertionSort mdGE table).Sorted mdGE :=
    List.sorted_insertionSort _ _
  have hfind : (List.insertionSort mdGE table).find?
      (fun e => decide (e.minRatio ≤ ratio)) = none := by
    rw [List.find?_eq_none]
    intro x hx
    simpa using not_le.2 (h x (hperm.mem_iff.1 hx))
  have hsne : List.insertionSort mdGE table ≠ [] := by
    intro hnil
    apply hne
    have h2 : List.Perm table (List.insertionSort mdGE table) := hperm.symm
    rw [hnil] at h2
    exact h2.eq_nil
  cases hlast : (List.insertionSort mdGE table).getLast? with
  | none => exact absurd (List.getLast?_eq_none_iff.1 hlast) hsne
  | some e =>
    refine ⟨e, hperm.mem_iff.1 (mem_of_getLast?_eq_some hlast), ?_, ?_, ?_⟩
    · intro x hx
      exact getLast_min_of_sorted hsorted hlast x (hperm.mem_iff.2 hx)
    · unfold getMultiplier
      rw [if_neg hlen]
      simp only [hfind, hlast]
      rfl
    · unfold getMultiplierHM
      rw [if_neg hlen]
      simp only [hfind, hlast]

/-- The three-rule table of the worked example. -/
def exTable : List (MultiplierData ℚ) :=
  [⟨0, 1⟩, ⟨1/2, 3/2⟩, ⟨1, 2⟩]

/-- C3 (amended): both pricing lookups sort the rules descending by minRatio
and return the multiplier of the first rule with minRatio ≤ ratio; on the
empty table both return 1; when the ratio is below every threshold the
DistributionView lookup returns the multiplier of the rule with the smallest
minRatio, while the HexagonMap lookup returns that multiplier only when it is
nonzero, substituting 1 for a zero multiplier (JS `|| 1`); for the example
table supplied in any order, ratio 0.7 resolves to 1.5, ratio -5 to 1 and
ratio 10 to 2 under both lookups. -/
theorem C3_pricing_lookup (table p : List (MultiplierData ℚ)) (ratio : ℚ) :
    (table = [] → getMultiplier table ratio = 1 ∧ getMultiplierHM table ratio = 1) ∧
    ((∃ r ∈ table, r.minRatio ≤ ratio) →
      ∃ r ∈ table, r.minRatio ≤ ratio ∧
        (∀ x ∈ table, x.minRatio ≤ ratio → x.minRatio ≤ r.minRatio) ∧
        getMultiplier table ratio = r.multiplier ∧
        getMultiplierHM table ratio = r.multiplier) ∧
    (table ≠ [] → (∀ r ∈ table, ratio < r.minRatio) →
      ∃ r ∈ table, (∀ x ∈ table, r.minRatio ≤ x.minRatio) ∧
        getMultiplier table ratio = r.multiplier ∧
        getMultiplierHM table ratio = (if r.multiplier = 0 then 1 else r.multiplier)) ∧
    (List.Perm p exTable →
      getMultiplier p (7/10) = 3/2 ∧ getMultiplierHM p (7/10) = 3/2 ∧
      getMultiplier p (-5) = 1 ∧ getMultiplierHM p (-5) = 1 ∧
      getMultiplier p 10 = 2 ∧ getMultiplierHM p 10 = 2) := by
  refine ⟨?_, ?_, ?_, ?_⟩
  · intro h
    subst h
    constructor <;> rfl
  · exact getMultiplier_of_hit table ratio
  · exact getMultiplier_of_miss table ratio
  · intro hp
    have hmem0 : (⟨0, 1⟩ : MultiplierData ℚ) ∈ p := hp.mem_iff.2 (by simp [exTable])
    have hmemH : (⟨1/2, 3/2⟩ : MultiplierData ℚ) ∈ p := hp.mem_iff.2 (by simp [exTable])
    have hmem1 : (⟨1, 2⟩ : MultiplierData ℚ) ∈ p := hp.mem_iff.2 (by simp [exTable])
    have hpne : p ≠ [] := by
      intro h
      have := hp.length_eq
      rw [h] at this
      simp [exTable] at this
    have hcases : ∀ r ∈ p, r = (⟨0, 1⟩ : MultiplierData ℚ) ∨
        r = (⟨1/2, 3/2⟩ : MultiplierData ℚ) ∨ r = (⟨1, 2⟩ : MultiplierData ℚ) := by
      intro r hr
      have := hp.mem_iff.1 hr
      simpa [exTable] using this
    have h07 : getMultiplier p (7/10) = 3/2 ∧ getMultiplierHM p (7/10) = 3/2 := by
      obtain ⟨r, hrp, hrle, hrmax, hdv, hhm⟩ :=
        getMultiplier_of_hit p (7/10) ⟨⟨1/2, 3/2⟩, hmemH, by norm_num⟩
      rcases hcases r hrp with rfl | rfl | rfl
      · exfalso
        have := hrmax ⟨1/2, 3/2⟩ hmemH (by norm_num)
        norm_num at this
      · exact ⟨hdv, hhm⟩
      · exfalso
        norm_num at hrle
    have hm5 : getMultiplier p (-5) = 1 ∧ getMultiplierHM p (-5) = 1 := by
      obtain ⟨r, hrp, hrmin, hdv, hhm⟩ :=
        getMultiplier_of_miss p (-5) hpne (by
          intro r hr
          rcases hcases r hr with rfl | rfl | rfl <;> norm_num)
      rcases hcases r hrp with rfl | rfl | rfl
      · refine ⟨hdv, ?_⟩
        rw [hhm]
        norm_num
      · exfalso
        have := hrmin ⟨0, 1⟩ hmem0
        norm_num at this
      · exfalso
        have := hrmin ⟨0, 1⟩ hmem0
        norm_num at this
    have h10 : getMultiplier p 10 = 2 ∧ getMultiplierHM p 10 = 2 := by
      obtain ⟨r, hrp, hrle, hrmax, hdv, hhm⟩ :=
        getMultiplier_of_hit p 10 ⟨⟨1, 2⟩, hmem1, by norm_num⟩
      rcases hcases r hrp with rfl | rfl | rfl
      · exfalso
        have := hrmax ⟨1, 2⟩ hmem1 (by norm_num)
        norm_num at this
      · exfalso
        have := hrmax ⟨1, 2⟩ hmem1 (by norm_num)
        norm_num at this
      · exact ⟨hdv, hhm⟩
    exact ⟨h07.1, h07.2, hm5.1, hm5.2, h10.1, h10.2⟩

/-- C3 witness: the general lookup theorem applied to the example table in
its given order. -/
theorem C3_pricing_lookup_witness :
    getMultiplier exTable (7/10) = 3/2 ∧ getMultiplierHM exTable (7/10) = 3/2 ∧
    getMultiplier exTable (-5) = 1 ∧ getMultiplierHM exTable (-5) = 1 ∧
    getMultiplier exTable 10 = 2 ∧ getMultiplierHM exTable 10 = 2 :=
  (C3_pricing_lookup exTable exTable 0).2.2.2 (List.Perm.refl _)

/-- C3 counterexample: for the one-rule table with minRatio 5 and multiplier
0 and ratio 1 (below every threshold), the HexagonMap lookup returns 1, not
the multiplier 0 of the rule with the smallest minRatio as the claim states;
the DistributionView lookup does return 0. -/
theorem C3_counterexample :
    getMultiplier [(⟨5, 0⟩ : MultiplierData ℚ)] 1 = 0 ∧
    getMultiplierHM [(⟨5, 0⟩ : MultiplierData ℚ)] 1 = 1 ∧
    getMultiplierHM [(⟨5, 0⟩ : MultiplierData ℚ)] 1 ≠
      (⟨5, 0⟩ : MultiplierData ℚ).multiplier := by
  refine ⟨?_, ?_, ?_⟩ <;> decide

/-- A miniature JS heap of arrays of multiplier rules: a reference is an
index into the heap, reading a dangling reference gives the empty array. -/
def readRef (h : List (List (MultiplierData ℚ))) (r : ℕ) : List (MultiplierData ℚ) :=
  h[r]?.getD []

/-- JS `[...xs]`: allocate a fresh array holding a copy of the contents. -/
def allocRef (h : List (List (MultiplierData ℚ))) (v : List (MultiplierData ℚ)) :
    List (List (MultiplierData ℚ)) × ℕ :=
  (h ++ [v], h.length)

/-- JS in-place array mutation through a reference. -/
def writeRef (h : List (List (MultiplierData ℚ))) (r : ℕ)
    (v : List (MultiplierData ℚ)) : List (List (MultiplierData ℚ)) :=
  h.set r v

/-- getMultiplier with the heap effects of `[...multiplierData].sort(...)`
made explicit: the spread allocates a fresh array and Array.prototype.sort
mutates that copy in place; the result is the resolved multiplier together
with the heap after the call. -/
def getMultiplierHeap (h : List (List (MultiplierData ℚ))) (tableRef : ℕ)
    (ratio : ℚ) : ℚ × List (List (MultiplierData ℚ)) :=
  let table := readRef h tableRef
  if table.length = 0 then (1, h)
  else
    let alloc := allocRef h table
    let h1 := alloc.1
    let copyRef := alloc.2
    let h2 := writeRef h1 copyRef (List.insertionSort mdGE (readRef h1 copyRef))
    let sorted := readRef h2 copyRef
    match sorted.find? (fun e => decide (e.minRatio ≤ ratio)) with
    | some e => (e.multiplier, h2)
    | none => (((sorted.getLast?).map MultiplierData.multiplier).getD 1, h2)

/-- C10: resolving a multiplier sorts a freshly allocated copy of the rule
array, so the caller's table holds the same elements in the same order after
the call, and the returned multiplier agrees with the pure lookup. -/
theorem C10_getMultiplier_preserves_table
    (h : List (List (MultiplierData ℚ))) (tableRef : ℕ) (ratio : ℚ)
    (href : tableRef < h.length) :
    readRef (getMultiplierHeap h tableRef ratio).2 tableRef = readRef h tableRef ∧
    (getMultiplierHeap h tableRef ratio).1 = getMultiplier (readRef h tableRef) ratio := by
  by_cases hlen : (readRef h tableRef).length = 0
  · constructor
    · simp [getMultiplierHeap, hlen]
    · simp [getMultiplierHeap, getMultiplier, hlen]
  · have hcopy : readRef (h ++ [readRef h tableRef]) h.length = readRef h tableRef := by
      unfold readRef
      rw [List.getElem?_concat_length]
      rfl
    have htab : readRef (h ++ [readRef h tableRef]) tableRef = readRef h tableRef := by
      unfold readRef
      rw [List.getElem?_append_left href]
    have hsortedRead :
        readRef (writeRef (h ++ [readRef h tableRef]) h.length
            (List.insertionSort mdGE (readRef (h ++ [readRef h tableRef]) h.length)))
          h.length =
          List.insertionSort mdGE (readRef h tableRef) := by
      unfold readRef writeRef
      rw [List.getElem?_set_self (by simp)]
      rw [List.getElem?_concat_length]
      rfl
    have htabAfter :
        readRef (writeRef (h ++ [readRef h tableRef]) h.length
            (List.insertionSort mdGE (readRef (h ++ [readRef h tableRef]) h.length)))
          tableRef = readRef h tableRef := by
      unfold readRef writeRef
      rw [List.getElem?_set_ne (Nat.ne_of_gt href)]
      exact htab
    constructor
    · unfold getMultiplierHeap
      rw [if_neg hlen]
      simp only [allocRef]
      cases hfind : (readRef (writeRef (h ++ [readRef h tableRef]) h.length
          (List.insertionSort mdGE (readRef (h ++ [readRef h tableRef]) h.length)))
          h.length).find? (fun e => decide (e.minRatio ≤ ratio)) with
      | none => exact htabAfter
      | some e => exact htabAfter
    · unfold getMultiplierHeap getMultiplier
      rw [if_neg hlen, if_neg hlen]
      simp only [allocRef, hsortedRead]
      cases (List.insertionSort mdGE (readRef h tableRef)).find?
          (fun e => decide (e.minRatio ≤ ratio)) <;> rfl

/-- C10 witness: a concrete one-table heap, read back unchanged. -/
theorem C10_getMultiplier_preserves_table_witness :
    readRef (getMultiplierHeap [[(⟨0, 1⟩ : MultiplierData ℚ)]] 0 5).2 0 =
      readRef [[(⟨0, 1⟩ : MultiplierData ℚ)]] 0 ∧
    (getMultiplierHeap [[(⟨0, 1⟩ : MultiplierData ℚ)]] 0 5).1 =
      getMultiplier (readRef [[(⟨0, 1⟩ : MultiplierData ℚ)]] 0) 5 :=
  C10_getMultiplier_preserves_table [[(⟨0, 1⟩ : MultiplierData ℚ)]] 0 5 (by decide)

/-- One step of the Welford update of DistributionView.tsx lines 171-183,
ControlPanel.tsx lines 662-674 and part_001 lines 185-200: the accumulator
holds (running mean, sum of squared deviations m2, count n). -/
def wStep (st : ℚ × ℚ × ℕ) (x : ℚ) : ℚ × ℚ × ℕ :=
  let n := st.2.2 + 1
  let delta := x - st.1
  let mean := st.1 + delta / (n : ℚ)
  let delta2 := x - mean
  (mean, st.2.1 + delta * delta2, n)

/-- The Welford fold over a whole population, started from (0, 0, 0). -/
def welford (l : List ℚ) : ℚ × ℚ × ℕ :=
  l.foldl wStep (0, 0, 0)

/-- Spec-side definition (section 4.3 of the spec): the population mean of
the raw ratios, written directly as sum over count (0 for the empty list). -/
def specMean (l : List ℚ) : ℚ :=
  l.sum / (l.length : ℚ)

/-- Spec-side definition: the sum of squared deviations from the mean. -/
def specSumSqDev (l : List ℚ) : ℚ :=
  (l.map fun x => (x - specMean l) ^ 2).sum

lemma map_sub_sq_sum (l : List ℚ) (c : ℚ) :
    (l.map fun x => (x - c) ^ 2).sum =
      (l.map fun x => x ^ 2).sum - 2 * c * l.sum + (l.length : ℚ) * c ^ 2 := by
  induction l with
  | nil => simp
  | cons a t ih =>
    simp only [List.map_cons, List.sum_cons, List.length_cons, ih]
    push_cast
    ring

lemma welford_concat (t : List ℚ) (x : ℚ) :
    welford (t ++ [x]) = wStep (welford t) x := by
  unfold welford
  rw [List.foldl_append]
  rfl

/-- The numerically stable single-pass mean and m2 of the code equal the
direct mean and sum of squared deviations of the spec, exactly, over ℚ. -/
lemma welford_eq (l : List ℚ) :
    welford l = (specMean l, specSumSqDev l, l.length) := by
  induction l using List.reverseRecOn with
  | nil => simp [welford, specMean, specSumSqDev]
  | append_singleton t x ih =>
    rw [welford_concat, ih]
    rcases eq_or_ne t [] with rfl | htne
    · simp [wStep, specMean, specSumSqDev]
    · have hn : (t.length : ℚ) ≠ 0 := by
        intro h
        exact htne (List.length_eq_zero.1 (by exact_mod_cast h))
      have hn1 : (t.length : ℚ) + 1 ≠ 0 := by positivity
      simp only [wStep]
      rw [Prod.mk.injEq, Prod.mk.injEq]
      refine ⟨?_, ?_, by simp⟩
      · unfold specMean
        simp only [List.sum_append, List.length_append, List.sum_cons,
          List.sum_nil, List.length_cons, List.length_nil]
        push_cast
        field_simp
        ring
      · unfold specSumSqDev
        rw [map_sub_sq_sum, map_sub_sq_sum]
        unfold specMean
        simp only [List.sum_append, List.length_append, List.map_append,
          List.map_cons, List.map_nil, List.sum_cons, List.sum_nil,
          List.length_cons, List.length_nil]
        push_cast
        field_simp
        ring

/-- C6: each ratio policy function is total on nonnegative integer counts:
the raw ratio, with JS division made explicit, never produces Infinity and
returns d/s for s > 0 and 1 or 0 for s = 0; the free computeLogRatio, whose
callers guard s = 0, returns ln(d+1)/ln(s+1) (never Infinity) whenever
s > 0; and the guarded computeLogRatio variant is total outright. -/
theorem C6_ratio_totality (d s : ℕ) :
    (computeRawRatioJS d s).isSome = true ∧
    computeRawRatioJS d s = some (computeRawRatio d s) ∧
    (s = 0 → computeRawRatio d s = (if 0 < d then 1 else 0)) ∧
    (0 < s → computeRawRatio d s = (d : ℚ) / (s : ℚ)) ∧
    (0 < s → computeLogRatio d s =
      some (Real.log ((d : ℝ) + 1) / Real.log ((s : ℝ) + 1))) ∧
    (computeLogRatioGuarded d s).isSome = true := by
  have hlog : 0 < s → Real.log ((s : ℝ) + 1) ≠ 0 := by
    intro hs
    have h1 : (1 : ℝ) < (s : ℝ) + 1 := by
      have : (0 : ℝ) < (s : ℝ) := by exact_mod_cast hs
      linarith
    exact ne_of_gt (Real.log_pos h1)
  refine ⟨?_, ?_, ?_, ?_, ?_, ?_⟩
  · unfold computeRawRatioJS jsDivQ
    rcases eq_or_ne s 0 with rfl | hs
    · simp
    · rw [if_neg hs, if_neg (by exact_mod_cast hs)]
      rfl
  · unfold computeRawRatioJS computeRawRatio jsDivQ
    rcases eq_or_ne s 0 with rfl | hs
    · simp
    · rw [if_neg hs, if_neg hs, if_neg (by exact_mod_cast hs)]
  · intro hs
    subst hs
    unfold computeRawRatio
    rw [if_pos rfl]
  · intro hs
    unfold computeRawRatio
    rw [if_neg (Nat.pos_iff_ne_zero.1 hs)]
  · intro hs
    unfold computeLogRatio
    rw [if_neg (hlog hs)]
  · unfold computeLogRatioGuarded
    split
    · simp
    · split <;> simp

/-- C6 witness: the totality theorem instantiated at demand 3, supply 2 and
at demand 1, supply 0. -/
theorem C6_ratio_totality_witness :
    computeRawRatioJS 3 2 = some (computeRawRatio 3 2) ∧
    computeRawRatio 3 2 = ((3 : ℕ) : ℚ) / ((2 : ℕ) : ℚ) ∧
    computeLogRatio 3 2 =
      some (Real.log (((3 : ℕ) : ℝ) + 1) / Real.log (((2 : ℕ) : ℝ) + 1)) ∧
    computeRawRatio 1 0 = (if 0 < (1 : ℕ) then 1 else 0) :=
  ⟨(C6_ratio_totality 3 2).2.1,
   (C6_ratio_totality 3 2).2.2.2.1 (by decide),
   (C6_ratio_totality 3 2).2.2.2.2.1 (by decide),
   (C6_ratio_totality 1 0).2.2.1 rfl⟩

/-- stepMs of DistributionView.tsx line 223 / ControlPanel.tsx line 725:
`Math.max(1, stepMinutes) * 60 * 1000`, always positive. -/
def stepMs (stepMinutes : ℤ) : ℤ :=
  max 1 stepMinutes * 60000

/-- The middle sampling loop of DistributionView.tsx lines 229-231: starting
at t, emit t and advance by s while t < tto.  The structural fuel only
bounds the iteration count; sampleTimes supplies enough fuel because the
step is at least 1. -/
def loopTimes : ℕ → ℤ → ℤ → ℤ → List ℤ
  | 0, _, _, _ => []
  | fuel + 1, t, tto, s => if t < tto then t :: loopTimes fuel (t + s) tto s else []

/-- The sample-instant sequence of DistributionView.tsx lines 219-232 and
ControlPanel.tsx lines 717-734: empty when from > to after clamping,
otherwise from, then the stepped middle instants strictly below to, then to
itself when to differs from from. -/
def sampleTimes (tfrom tto stepMinutes : ℤ) : List ℤ :=
  if tfrom > tto then []
  else
    (tfrom :: loopTimes (tto - tfrom).toNat (tfrom + stepMs stepMinutes) tto
        (stepMs stepMinutes)) ++
      (if tto ≠ tfrom then [tto] else [])

lemma one_le_stepMs (stepMinutes : ℤ) : 1 ≤ stepMs stepMinutes := by
  unfold stepMs
  have h1 : (1 : ℤ) ≤ max 1 stepMinutes := le_max_left 1 stepMinutes
  nlinarith

/-- With enough fuel, the loop produces exactly the arithmetic progression
t, t+s, t+2s, ... of all instants strictly below tto. -/
lemma loopTimes_spec (s : ℤ) (hs : 1 ≤ s) :
    ∀ (fuel : ℕ) (t tto : ℤ), (tto - t).toNat ≤ fuel →
    ∃ n : ℕ, loopTimes fuel t tto s = (List.range n).map (fun i : ℕ => t + s * (i : ℤ)) ∧
      (∀ i : ℕ, i < n → t + s * (i : ℤ) < tto) ∧ ¬(t + s * (n : ℤ) < tto) := by
  intro fuel
  induction fuel with
  | zero =>
    intro t tto hf
    refine ⟨0, rfl, ?_, ?_⟩
    · intro i hi
      exact absurd hi (Nat.not_lt_zero i)
    · simp only [Nat.cast_zero, mul_zero, add_zero]
      omega
  | succ fuel ih =>
    intro t tto hf
    by_cases h : t < tto
    · have hf2 : (tto - (t + s)).toNat ≤ fuel := by omega
      obtain ⟨n, hl, hlt, hge⟩ := ih (t + s) tto hf2
      refine ⟨n + 1, ?_, ?_, ?_⟩
      · show (if t < tto then t :: loopTimes fuel (t + s) tto s else []) = _
        rw [if_pos h, hl, List.range_succ_eq_map, List.map_cons, List.map_map]
        refine congrArg₂ _ (by ring) (List.map_congr_left ?_)
        intro i _
        show t + s + s * (i : ℤ) = t + s * ((Nat.succ i : ℕ) : ℤ)
        push_cast
        ring
      · intro i hi
        cases i with
        | zero => simpa using h
        | succ j =>
          have hj := hlt j (Nat.lt_of_succ_lt_succ hi)
          have : t + s * ((Nat.succ j : ℕ) : ℤ) = t + s + s * (j : ℤ) := by
            push_cast
            ring
          rw [this]
          exact hj
      · have : t + s * (((n + 1 : ℕ)) : ℤ) = t + s + s * (n : ℤ) := by
          push_cast
          ring
        rw [this]
        exact hge
    · refine ⟨0, ?_, ?_, ?_⟩
      · show (if t < tto then t :: loopTimes fuel (t + s) tto s else []) = _
        rw [if_neg h]
        rfl
      · intro i hi
        exact absurd hi (Nat.not_lt_zero i)
      · simpa using h

/-- Shape of the sample-instant sequence for a nonempty clamped range. -/
lemma sampleTimes_shape (tfrom tto stepMinutes : ℤ) (h : tfrom ≤ tto) :
    ∃ n : ℕ,
      sampleTimes tfrom tto stepMinutes =
        (tfrom :: (List.range n).map
            (fun i : ℕ => tfrom + stepMs stepMinutes * ((i : ℤ) + 1))) ++
          (if tto ≠ tfrom then [tto] else []) ∧
      (∀ i : ℕ, i < n → tfrom + stepMs stepMinutes * ((i : ℤ) + 1) < tto) ∧
      ¬(tfrom + stepMs stepMinutes * ((n : ℤ) + 1) < tto) := by
  have hs := one_le_stepMs stepMinutes
  obtain ⟨n, hl, hlt, hge⟩ :=
    loopTimes_spec (stepMs stepMinutes) hs (tto - tfrom).toNat
      (tfrom + stepMs stepMinutes) tto (by omega)
  refine ⟨n, ?_, ?_, ?_⟩
  · unfold sampleTimes
    rw [if_neg (not_lt.2 h), hl]
    refine congrArg₂ _ (congrArg _ (List.map_congr_left ?_)) rfl
    intro i _
    ring
  · intro i hi
    have := hlt i hi
    linarith [this]
  · intro hcon
    exact hge (by linarith)

/-- C4: for a clamped range with from ≤ to, the sample-instant sequence is
exactly from, then from + k*step for k = 1, 2, ... as long as each instant
is strictly below to, then to itself whenever to differs from from; when
from > to after clamping the sampler yields the empty sequence, not an
error; and the 37-minute example with a 15-minute step gives the four
instants T0, T0+15min, T0+30min, T0+37min. -/
theorem C4_sample_instants (tfrom tto stepMinutes : ℤ) :
    (tfrom > tto → sampleTimes tfrom tto stepMinutes = []) ∧
    (tfrom ≤ tto →
      ∃ n : ℕ,
        sampleTimes tfrom tto stepMinutes =
          (tfrom :: (List.range n).map
              (fun i : ℕ => tfrom + stepMs stepMinutes * ((i : ℤ) + 1))) ++
            (if tto ≠ tfrom then [tto] else []) ∧
        (∀ i : ℕ, i < n → tfrom + stepMs stepMinutes * ((i : ℤ) + 1) < tto) ∧
        ¬(tfrom + stepMs stepMinutes * ((n : ℤ) + 1) < tto)) ∧
    sampleTimes 0 2220000 15 = [0, 900000, 1800000, 2220000] := by
  refine ⟨?_, sampleTimes_shape tfrom tto stepMinutes, ?_⟩
  · intro h
    unfold sampleTimes
    rw [if_pos h]
  · decide

/-- C4 witness: the shape theorem applied to the degenerate range 5 > 0 and
to the worked 37-minute example range. -/
theorem C4_sample_instants_witness :
    sampleTimes 5 0 15 = [] ∧
    (∃ n : ℕ,
      sampleTimes 0 2220000 15 =
        ((0 : ℤ) :: (List.range n).map
            (fun i : ℕ => (0 : ℤ) + stepMs 15 * ((i : ℤ) + 1))) ++
          (if (2220000 : ℤ) ≠ 0 then [(2220000 : ℤ)] else []) ∧
      (∀ i : ℕ, i < n → (0 : ℤ) + stepMs 15 * ((i : ℤ) + 1) < 2220000) ∧
      ¬((0 : ℤ) + stepMs 15 * ((n : ℤ) + 1) < 2220000)) :=
  ⟨(C4_sample_instants 5 0 15).1 (by decide),
   (C4_sample_instants 0 2220000 15).2.1 (by decide)⟩

/-- C9: the generated sample-instant sequence is strictly increasing, has no
duplicates, and every instant lies between from and to inclusive. -/
theorem C9_sample_instants_invariants (tfrom tto stepMinutes : ℤ) :
    List.Pairwise (fun a b : ℤ => a < b) (sampleTimes tfrom tto stepMinutes) ∧
    (sampleTimes tfrom tto stepMinutes).Nodup ∧
    ∀ x ∈ sampleTimes tfrom tto stepMinutes, tfrom ≤ x ∧ x ≤ tto := by
  have hs := one_le_stepMs stepMinutes
  rcases lt_or_le tto tfrom with hlt | hle
  · have hempty : sampleTimes tfrom tto stepMinutes = [] := by
      unfold sampleTimes
      rw [if_pos hlt]
    rw [hempty]
    refine ⟨List.Pairwise.nil, List.nodup_nil, ?_⟩
    intro x hx
    exact absurd hx (List.not_mem_nil x)
  · obtain ⟨n, hshape, hbelow, _⟩ := sampleTimes_shape tfrom tto stepMinutes hle
    rw [hshape]
    have hmidmem : ∀ x ∈ (List.range n).map
        (fun i : ℕ => tfrom + stepMs stepMinutes * ((i : ℤ) + 1)),
        tfrom < x ∧ x < tto := by
      intro x hx
      obtain ⟨i, hi, rfl⟩ := List.mem_map.1 hx
      rw [List.mem_range] at hi
      constructor
      · have h0 : (0 : ℤ) ≤ (i : ℤ) := Int.natCast_nonneg i
        nlinarith
      · exact hbelow i hi
    have hmidpair : List.Pairwise (fun a b : ℤ => a < b)
        ((List.range n).map
          (fun i : ℕ => tfrom + stepMs stepMinutes * ((i : ℤ) + 1))) := by
      rw [List.pairwise_map]
      refine (List.pairwise_lt_range n).imp ?_
      intro a b hab
      have hcast : (a : ℤ) < (b : ℤ) := by exact_mod_cast hab
      nlinarith
    have hpair : List.Pairwise (fun a b : ℤ => a < b)
        ((tfrom :: (List.range n).map
            (fun i : ℕ => tfrom + stepMs stepMinutes * ((i : ℤ) + 1))) ++
          (if tto ≠ tfrom then [tto] else [])) := by
      rw [List.pairwise_append]
      refine ⟨?_, ?_, ?_⟩
      · rw [List.pairwise_cons]
        exact ⟨fun x hx => (hmidmem x hx).1, hmidpair⟩
      · split <;> simp
      · intro a ha b hb
        have hbmem : b ∈ (if tto ≠ tfrom then [tto] else []) := hb
        by_cases hne : tto ≠ tfrom
        · rw [if_pos hne] at hbmem
          have hb2 : b = tto := by simpa using hbmem
          rcases List.mem_cons.1 ha with ha1 | hamid
          · rw [ha1, hb2]
            exact lt_of_le_of_ne hle fun h => hne h.symm
          · rw [hb2]
            exact (hmidmem a hamid).2
        · rw [if_neg hne] at hbmem
          exact absurd hbmem (List.not_mem_nil b)
    refine ⟨hpair, hpair.imp (fun h => ne_of_lt h), ?_⟩
    · intro x hx
      rcases List.mem_append.1 hx with hx1 | hx2
      · rcases List.mem_cons.1 hx1 with hx3 | hxm
        · rw [hx3]
          exact ⟨le_refl _, hle⟩
        · exact ⟨le_of_lt (hmidmem x hxm).1, le_of_lt (hmidmem x hxm).2⟩
      · by_cases hne : tto ≠ tfrom
        · rw [if_pos hne] at hx2
          have hx3 : x = tto := by simpa using hx2
          rw [hx3]
          exact ⟨hle, le_refl _⟩
        · rw [if_neg hne] at hx2
          exact absurd hx2 (List.not_mem_nil x)

/-- One histogram bin: numeric low and high edges (the code renders the
label from them with toFixed(2), display only) and a count. -/
structure HistBin where
  lo : ℚ
  hi : ℚ
  count : ℕ
deriving DecidableEq

/-- Math.min(...values) for the nonempty list v :: vs. -/
def listMin (v : ℚ) (vs : List ℚ) : ℚ :=
  vs.foldl min v

/-- Math.max(...values) for the nonempty list v :: vs. -/
def listMax (v : ℚ) (vs : List ℚ) : ℚ :=
  vs.foldl max v

/-- The bin index of DistributionView.tsx line 286:
Math.min(nBins - 1, Math.max(0, Math.floor((v - min) / width))). -/
def binIdx (nBins : ℕ) (vmin width v : ℚ) : ℕ :=
  (min ((nBins : ℤ) - 1) (max 0 ⌊(v - vmin) / width⌋)).toNat

/-- counts[idx] += 1 on a fixed-length counter list. -/
def incAt (counts : List ℕ) (i : ℕ) : List ℕ :=
  counts.set i (counts.getD i 0 + 1)

/-- histogramData of DistributionView.tsx lines 271-295: clamp the bin count
to [5, 60]; a single bin when min = max; otherwise equal-width bins between
min and max with each sample counted at its clamped floor index. -/
def histogramData (values : List ℚ) (bins : ℤ) : List HistBin :=
  match values with
  | [] => []
  | v :: vs =>
    let nBins : ℕ := (max 5 (min 60 bins)).toNat
    let vmin := listMin v vs
    let vmax := listMax v vs
    if vmin = vmax then [⟨vmin, vmax, (v :: vs).length⟩]
    else
      let width := (vmax - vmin) / (nBins : ℚ)
      let counts := (v :: vs).foldl
        (fun cs x => incAt cs (binIdx nBins vmin width x))
        (List.replicate nBins 0)
      (List.range nBins).map fun i : ℕ =>
        ⟨vmin + (i : ℚ) * width, vmin + ((i : ℚ) + 1) * width, counts.getD i 0⟩

lemma incAt_length (cs : List ℕ) (i : ℕ) : (incAt cs i).length = cs.length := by
  unfold incAt
  exact List.length_set cs i _

lemma incAt_sum : ∀ (cs : List ℕ) (i : ℕ), i < cs.length →
    (incAt cs i).sum = cs.sum + 1 := by
  intro cs
  induction cs with
  | nil => intro i hi; simp at hi
  | cons c t ih =>
    intro i hi
    cases i with
    | zero =>
      unfold incAt
      rw [List.getD_cons_zero, List.set_cons_zero, List.sum_cons, List.sum_cons]
      omega
    | succ j =>
      have hj : j < t.length := by simpa using hi
      have h2 := ih j hj
      unfold incAt at h2 ⊢
      rw [List.getD_cons_succ, List.set_cons_succ, List.sum_cons, List.sum_cons, h2]
      omega

lemma incFold_length (f : ℚ → ℕ) : ∀ (l : List ℚ) (cs : List ℕ),
    (l.foldl (fun cs x => incAt cs (f x)) cs).length = cs.length := by
  intro l
  induction l with
  | nil => intro cs; rfl
  | cons x t ih =>
    intro cs
    rw [List.foldl_cons, ih, incAt_length]

lemma incFold_sum (f : ℚ → ℕ) : ∀ (l : List ℚ) (cs : List ℕ),
    (∀ x ∈ l, f x < cs.length) →
    (l.foldl (fun cs x => incAt cs (f x)) cs).sum = cs.sum + l.length := by
  intro l
  induction l with
  | nil => intro cs _; simp
  | cons x t ih =>
    intro cs hf
    rw [List.foldl_cons, ih, incAt_sum cs (f x) (hf x (List.mem_cons_self x t)),
      List.length_cons]
    · ring
    · intro y hy
      rw [incAt_length]
      exact hf y (List.mem_cons_of_mem x hy)

lemma binIdx_lt (nBins : ℕ) (h : 1 ≤ nBins) (vmin width v : ℚ) :
    binIdx nBins vmin width v < nBins := by
  unfold binIdx
  omega

lemma getD_range_sum : ∀ cs : List ℕ,
    ((List.range cs.length).map fun i => cs.getD i 0).sum = cs.sum := by
  intro cs
  induction cs with
  | nil => simp
  | cons c t ih =>
    rw [List.length_cons, List.range_succ_eq_map, List.map_cons, List.map_map,
      List.sum_cons]
    have hcongr : (List.range t.length).map ((fun i => (c :: t).getD i 0) ∘ Nat.succ) =
        (List.range t.length).map fun i => t.getD i 0 := by
      refine List.map_congr_left ?_
      intro i _
      rfl
    rw [hcongr, ih, List.getD_cons_zero, List.sum_cons]

lemma getD_range_sum_of_length (cs : List ℕ) (N : ℕ) (h : cs.length = N) :
    ((List.range N).map fun i => cs.getD i 0).sum = cs.sum := by
  subst h
  exact getD_range_sum cs

/-- The sum of the per-bin counters equals the population size. -/
lemma hist_counts_sum (v : ℚ) (vs : List ℚ) (N : ℕ) (hN : 1 ≤ N) (vmin w : ℚ) :
    ((List.range N).map fun i : ℕ =>
        ((v :: vs).foldl (fun cs x => incAt cs (binIdx N vmin w x))
          (List.replicate N 0)).getD i 0).sum = (v :: vs).length := by
  have hlen : ((v :: vs).foldl (fun cs x => incAt cs (binIdx N vmin w x))
      (List.replicate N 0)).length = N := by
    rw [incFold_length, List.length_replicate]
  rw [getD_range_sum_of_length _ _ hlen, incFold_sum]
  · simp
  · intro x _
    rw [List.length_replicate]
    exact binIdx_lt _ hN _ _ x

/-- C5: for every nonempty population and bin count (clamped to [5, 60]):
when min = max the histogram is the single bin holding every sample; the sum
of all bin counts always equals the population size; and otherwise the
histogram has exactly nBins bins and every sample receives the clamped floor
bin index, which lies in [0, nBins). -/
theorem C5_histogram (values : List ℚ) (bins : ℤ) (hne : values ≠ []) :
    ((histogramData values bins).map HistBin.count).sum = values.length ∧
    (∀ v vs, values = v :: vs → listMin v vs = listMax v vs →
      histogramData values bins = [⟨listMin v vs, listMax v vs, values.length⟩]) ∧
    (∀ v vs, values = v :: vs → listMin v vs ≠ listMax v vs →
      (histogramData values bins).length = (max 5 (min 60 bins)).toNat ∧
      ∀ x ∈ values,
        binIdx (max 5 (min 60 bins)).toNat (listMin v vs)
            ((listMax v vs - listMin v vs) / (((max 5 (min 60 bins)).toNat : ℕ) : ℚ)) x <
          (max 5 (min 60 bins)).toNat) := by
  cases values with
  | nil => exact absurd rfl hne
  | cons v vs =>
    have hN : 1 ≤ (max 5 (min 60 bins)).toNat := by omega
    have hinj : ∀ (v' : ℚ) (vs' : List ℚ), (v :: vs : List ℚ) = v' :: vs' →
        v' = v ∧ vs' = vs := by
      intro v' vs' heq
      injection heq with h1 h2
      exact ⟨h1.symm, h2.symm⟩
    by_cases hmm : listMin v vs = listMax v vs
    · refine ⟨?_, ?_, ?_⟩
      · simp only [histogramData, if_pos hmm]
        simp
      · intro v' vs' heq _
        obtain ⟨rfl, rfl⟩ := hinj v' vs' heq
        simp only [histogramData, if_pos hmm]
      · intro v' vs' heq hneq
        obtain ⟨rfl, rfl⟩ := hinj v' vs' heq
        exact absurd hmm hneq
    · refine ⟨?_, ?_, ?_⟩
      · simp only [histogramData, if_neg hmm]
        rw [List.map_map]
        refine Eq.trans (congrArg List.sum (List.map_congr_left ?_))
          (hist_counts_sum v vs (max 5 (min 60 bins)).toNat hN (listMin v vs)
            ((listMax v vs - listMin v vs) / (((max 5 (min 60 bins)).toNat : ℕ) : ℚ)))
        intro i _
        rfl
      · intro v' vs' heq habs
        obtain ⟨rfl, rfl⟩ := hinj v' vs' heq
        exact absurd habs hmm
      · intro v' vs' heq _
        obtain ⟨rfl, rfl⟩ := hinj v' vs' heq
        constructor
        · simp only [histogramData, if_neg hmm]
          simp
        · intro x _
          exact binIdx_lt _ hN _ _ x

/-- C5 witness: the histogram of the population [1, 2, 4] with 20 requested
bins conserves the population size. -/
theorem C5_histogram_witness :
    ((histogramData [1, 2, 4] 20).map HistBin.count).sum =
      ([(1 : ℚ), 2, 4]).length :=
  (C5_histogram [1, 2, 4] 20 (by simp)).1

/-- Cast a rational multiplier rule to the real-valued lookup. -/
def mdCast (r : MultiplierData ℚ) : MultiplierData ℝ :=
  ⟨(r.minRatio : ℝ), (r.multiplier : ℝ)⟩

/-- The props consumed by DistributionView.tsx (lines 43-53). -/
structure DistInput where
  demandEvents : List EventData
  supplyVehicles : List SupplyData
  multiplierData : List (MultiplierData ℚ)
  basePrice : ℚ
  timeframeMinutes : ℤ
  hexagonResolution : ℕ
  normalizationEnabled : Bool

/-- hasDemand, DistributionView.tsx line 77: the whole uploaded dataset. -/
def hasDemand (i : DistInput) : Bool :=
  decide (0 < i.demandEvents.length)

/-- hasSupply, DistributionView.tsx line 78. -/
def hasSupply (i : DistInput) : Bool :=
  decide (0 < i.supplyVehicles.length)

/-- hasBoth, DistributionView.tsx line 79: both whole datasets nonempty. -/
def hasBoth (i : DistInput) : Bool :=
  hasDemand i && hasSupply i

/-- canShowPrice, DistributionView.tsx line 81. -/
def canShowPrice (i : DistInput) : Bool :=
  hasBoth i && decide (0 < i.multiplierData.length) && decide (0 < i.basePrice)

/-- The four distribution modes of DistributionView.tsx line 41. -/
inductive DistMode
  | price
  | coefficient
  | demand
  | supply
deriving DecidableEq

/-- mode, DistributionView.tsx lines 106-112. -/
def distMode (i : DistInput) : DistMode :=
  if canShowPrice i then DistMode.price
  else if hasBoth i then DistMode.coefficient
  else if hasDemand i then DistMode.demand
  else if hasSupply i then DistMode.supply
  else DistMode.coefficient

/-- Demand loop body of DistributionView.tsx lines 134-140: skip events
outside [windowStart, snapshotTime], otherwise count into the cell of the
external indexer and collect the cell id. -/
def dvDemandStep (hexIndex : ℚ → ℚ → ℕ → CellId) (res : ℕ) (windowStart snap : ℤ)
    (acc : List (CellId × ℕ) × List CellId) (e : EventData) :
    List (CellId × ℕ) × List CellId :=
  if e.timestamp < windowStart ∨ snap < e.timestamp then acc
  else
    (bump acc.1 (hexIndex e.latitude e.longitude res),
     addId acc.2 (hexIndex e.latitude e.longitude res))

/-- Supply loop body of DistributionView.tsx lines 145-149: skip vehicles
whose interval misses snapshotTime. -/
def dvSupplyStep (hexIndex : ℚ → ℚ → ℕ → CellId) (res : ℕ) (snap : ℤ)
    (acc : List (CellId × ℕ) × List CellId) (v : SupplyData) :
    List (CellId × ℕ) × List CellId :=
  if snap < v.startTime ∨ v.endTime < snap then acc
  else
    (bump acc.1 (hexIndex v.latitude v.longitude res),
     addId acc.2 (hexIndex v.latitude v.longitude res))

/-- The aggregation stage of computeSnapshotValues, DistributionView.tsx
lines 125-151: demandMap, supplyMap and the shared insertion-ordered
allHexIds set. -/
def dvAgg (hexIndex : ℚ → ℚ → ℕ → CellId) (i : DistInput) (snap : ℤ) :
    List (CellId × ℕ) × List (CellId × ℕ) × List CellId :=
  let windowStart := snap - i.timeframeMinutes * 60000
  let d := if hasDemand i then
      i.demandEvents.foldl (dvDemandStep hexIndex i.hexagonResolution windowStart snap)
        ([], [])
    else ([], [])
  let s := if hasSupply i then
      i.supplyVehicles.foldl (dvSupplyStep hexIndex i.hexagonResolution snap)
        ([], d.2)
    else ([], d.2)
  (d.1, s.1, s.2)

/-- Body of the combined rawRatioMap/Welford loop of DistributionView.tsx
lines 173-183 (also part_001 lines 189-200): accumulator is
(rawRatioMap, mean, m2, n). -/
def ratioStatStep (dm sm : List (CellId × ℕ))
    (acc : List (CellId × ℚ) × ℚ × ℚ × ℕ) (hexId : CellId) :
    List (CellId × ℚ) × ℚ × ℚ × ℕ :=
  let journeys := mapGet dm hexId
  let vehicles := mapGet sm hexId
  let raw := if vehicles = 0 then (if 0 < journeys then 1 else 0)
    else (journeys : ℚ) / (vehicles : ℚ)
  let n := acc.2.2.2 + 1
  let delta := raw - acc.2.1
  let mean := acc.2.1 + delta / (n : ℚ)
  let delta2 := raw - mean
  (rmapSet acc.1 hexId raw, mean, acc.2.2.1 + delta * delta2, n)

/-- The per-snapshot raw ratios over allHexIds, in cell order. -/
def snapshotRaws (hexIndex : ℚ → ℚ → ℕ → CellId) (i : DistInput) (snap : ℤ) :
    List ℚ :=
  let agg := dvAgg hexIndex i snap
  agg.2.2.map fun hexId => computeRawRatio (mapGet agg.1 hexId) (mapGet agg.2.1 hexId)

/-- Spec-side definition (section 4.3): sample standard deviation with the
n-1 denominator, 0 when n is at most 1. -/
noncomputable def specStdDev (l : List ℚ) : ℝ :=
  if 1 < l.length then Real.sqrt (((specSumSqDev l / ((l.length : ℚ) - 1)) : ℚ) : ℝ)
  else 0

/-- computeSnapshotValues of DistributionView.tsx lines 124-202: one value
per active cell; counts in one-sided mode, otherwise the (optionally
z-scored) ratio, converted to a price in price mode. -/
noncomputable def computeSnapshotValues (hexIndex : ℚ → ℚ → ℕ → CellId)
    (i : DistInput) (snap : ℤ) : List ℝ :=
  let agg := dvAgg hexIndex i snap
  let demandMap := agg.1
  let supplyMap := agg.2.1
  let allHexIds := agg.2.2
  if allHexIds.length = 0 then []
  else if hasBoth i = false then
    allHexIds.filterMap fun hexId =>
      match distMode i with
      | DistMode.demand => some ((mapGet demandMap hexId : ℕ) : ℝ)
      | DistMode.supply => some ((mapGet supplyMap hexId : ℕ) : ℝ)
      | _ => none
  else
    let st := allHexIds.foldl (ratioStatStep demandMap supplyMap) ([], 0, 0, 0)
    let stdDev : ℝ := if 1 < st.2.2.2 then
        Real.sqrt (((st.2.2.1 / ((st.2.2.2 : ℚ) - 1)) : ℚ) : ℝ)
      else 0
    allHexIds.map fun hexId =>
      let raw : ℚ := (rmapGet st.1 hexId).getD 0
      let ratio : ℝ := if i.normalizationEnabled = true ∧ 0 < stdDev then
          (((raw : ℚ) : ℝ) - ((st.2.1 : ℚ) : ℝ)) / stdDev
        else ((raw : ℚ) : ℝ)
      if distMode i = DistMode.price then
        getMultiplier (i.multiplierData.map mdCast) ratio * ((i.basePrice : ℚ) : ℝ)
      else ratio

/-- The props consumed by the part_001 / third HexagonMap variant. -/
structure P1Input where
  demandEvents : List EventData
  supplyVehicles : List SupplyData
  multiplierData : List (MultiplierData ℚ)
  basePrice : ℚ
  timeframeMinutes : ℤ
  hexagonResolution : ℕ
  normalizationEnabled : Bool

/-- filteredDemand of part_001 lines 106-112 / HexagonMap.tsx lines
1006-1012: events inside [snapshot - timeframe, snapshot]. -/
def p1FilteredDemand (i : P1Input) (snap : ℤ) : List EventData :=
  i.demandEvents.filter fun e =>
    decide (snap - i.timeframeMinutes * 60000 ≤ e.timestamp) &&
      decide (e.timestamp ≤ snap)

/-- availableSupply of part_001 lines 115-119: vehicles whose validity
interval contains the snapshot. -/
def p1AvailableSupply (i : P1Input) (snap : ℤ) : List SupplyData :=
  i.supplyVehicles.filter fun v =>
    decide (v.startTime ≤ snap) && decide (snap ≤ v.endTime)

/-- The aggregation of part_001 lines 154-170: count filtered demand, then
available supply, into per-cell maps sharing allHexIds. -/
def p1Agg (hexIndex : ℚ → ℚ → ℕ → CellId) (i : P1Input) (snap : ℤ) :
    List (CellId × ℕ) × List (CellId × ℕ) × List CellId :=
  let d := (p1FilteredDemand i snap).foldl
    (fun acc e =>
      (bump acc.1 (hexIndex e.latitude e.longitude i.hexagonResolution),
       addId acc.2 (hexIndex e.latitude e.longitude i.hexagonResolution)))
    ([], [])
  let s := (p1AvailableSupply i snap).foldl
    (fun acc v =>
      (bump acc.1 (hexIndex v.latitude v.longitude i.hexagonResolution),
       addId acc.2 (hexIndex v.latitude v.longitude i.hexagonResolution)))
    ([], d.2)
  (d.1, s.1, s.2)

/-- computeZScore of part_001 lines 121-126 / HexagonMap.tsx lines
1024-1029: 0 when stdDev is 0, else the centred quotient.  The
Number.isFinite guards on value and mean always hold in the rational
model. -/
noncomputable def computeZScore (value mean : ℚ) (stdDev : ℝ) : ℝ :=
  if stdDev = 0 then 0 else (((value : ℚ) : ℝ) - ((mean : ℚ) : ℝ)) / stdDev

/-- One rendered hexagon record of part_001: id, emitted ratio, display
center, raw counts and final price. -/
structure P1Hex where
  hexId : CellId
  ratio : ℝ
  center : ℚ × ℚ
  demand : ℕ
  supply : ℕ
  finalPrice : ℝ

/-- activeHexagons of part_001 lines 153-238 (identical in the third
HexagonMap variant, lines 1057-1146): per-cell ratio selected by
hasBothData/hasDemandOnly computed from the per-instant filtered maps, with
the optional z-score stage and final price. -/
noncomputable def p1Active (hexIndex : ℚ → ℚ → ℕ → CellId)
    (cellToLatLng : CellId → ℚ × ℚ) (i : P1Input) (snap : ℤ) : List P1Hex :=
  let agg := p1Agg hexIndex i snap
  let demandMap := agg.1
  let supplyMap := agg.2.1
  let allHexIds := agg.2.2
  let hasBothData := decide (0 < demandMap.length) && decide (0 < supplyMap.length)
  let st := if hasBothData then
      allHexIds.foldl (ratioStatStep demandMap supplyMap) ([], 0, 0, 0)
    else ([], 0, 0, 0)
  let ratioMean : ℚ := if hasBothData then st.2.1 else 0
  let ratioStdDev : ℝ := if hasBothData then
      (if 1 < st.2.2.2 then Real.sqrt (((st.2.2.1 / ((st.2.2.2 : ℚ) - 1)) : ℚ) : ℝ)
       else 0)
    else 0
  allHexIds.map fun hexId =>
    let demand := mapGet demandMap hexId
    let supply := mapGet supplyMap hexId
    let hasDemandOnly := decide (0 < demandMap.length) && decide (supplyMap.length = 0)
    let ratio : ℝ :=
      if hasBothData then
        (let raw := (rmapGet st.1 hexId).getD (computeRawRatio demand supply)
         if i.normalizationEnabled then computeZScore raw ratioMean ratioStdDev
         else ((raw : ℚ) : ℝ))
      else if hasDemandOnly then ((demand : ℕ) : ℝ)
      else 0
    let finalPrice : ℝ :=
      if hasBothData = true ∧ 0 < i.multiplierData.length ∧ 0 < i.basePrice then
        getMultiplierHM (i.multiplierData.map mdCast) ratio * ((i.basePrice : ℚ) : ℝ)
      else 0
    ⟨hexId, ratio, cellToLatLng hexId, demand, supply, finalPrice⟩

/-- inactiveSet of part_001 lines 240-268 / HexagonMap.tsx lines 1148-1176:
ring-1 neighbors of active cells that are not themselves active, gridDisk
failures (none) swallowed per cell; each inactive record carries all-zero
values. -/
def p1Inactive (gridDisk : CellId → Option (List CellId))
    (cellToLatLng : CellId → ℚ × ℚ) (activeHexIds : List CellId) : List P1Hex :=
  let inactiveSet := activeHexIds.foldl
    (fun s hexId =>
      match gridDisk hexId with
      | none => s
      | some neighbors =>
        neighbors.foldl (fun s n => if n ∈ activeHexIds then s else addId s n) s)
    []
  inactiveSet.map fun hexId => ⟨hexId, 0, cellToLatLng hexId, 0, 0, 0⟩

lemma addId_nodup {s : List CellId} (h : s.Nodup) (k : CellId) :
    (addId s k).Nodup := by
  unfold addId
  split
  · exact h
  · rename_i hk
    refine List.Nodup.append h (List.nodup_singleton k) ?_
    simpa [List.disjoint_singleton] using hk

lemma addId_mem (s : List CellId) (k x : CellId) :
    x ∈ addId s k ↔ x ∈ s ∨ x = k := by
  unfold addId
  split
  · rename_i hk
    constructor
    · exact Or.inl
    · rintro (h | rfl)
      · exact h
      · exact hk
  · simp

lemma foldl_ids_nodup {γ : Type}
    (sf : List (CellId × ℕ) × List CellId → γ → List (CellId × ℕ) × List CellId)
    (hsf : ∀ acc x, (sf acc x).2 = acc.2 ∨ ∃ k, (sf acc x).2 = addId acc.2 k) :
    ∀ (l : List γ) (acc : List (CellId × ℕ) × List CellId),
      acc.2.Nodup → ((l.foldl sf acc).2).Nodup := by
  intro l
  induction l with
  | nil => intro acc h; exact h
  | cons x t ih =>
    intro acc h
    rw [List.foldl_cons]
    apply ih
    rcases hsf acc x with heq | ⟨k, heq⟩
    · rw [heq]; exact h
    · rw [heq]; exact addId_nodup h k

lemma dvAgg_ids_nodup (hexIndex : ℚ → ℚ → ℕ → CellId) (i : DistInput)
    (snap : ℤ) : (dvAgg hexIndex i snap).2.2.Nodup := by
  unfold dvAgg
  dsimp only
  have hdstep : ∀ acc e,
      ((dvDemandStep hexIndex i.hexagonResolution
          (snap - i.timeframeMinutes * 60000) snap acc e).2 = acc.2) ∨
      ∃ k, (dvDemandStep hexIndex i.hexagonResolution
          (snap - i.timeframeMinutes * 60000) snap acc e).2 = addId acc.2 k := by
    intro acc e
    unfold dvDemandStep
    split
    · exact Or.inl rfl
    · exact Or.inr ⟨_, rfl⟩
  have hsstep : ∀ acc v,
      ((dvSupplyStep hexIndex i.hexagonResolution snap acc v).2 = acc.2) ∨
      ∃ k, (dvSupplyStep hexIndex i.hexagonResolution snap acc v).2 = addId acc.2 k := by
    intro acc v
    unfold dvSupplyStep
    split
    · exact Or.inl rfl
    · exact Or.inr ⟨_, rfl⟩
  have hd : (if hasDemand i then
      i.demandEvents.foldl (dvDemandStep hexIndex i.hexagonResolution
        (snap - i.timeframeMinutes * 60000) snap) ([], [])
    else (([], []) : List (CellId × ℕ) × List CellId)).2.Nodup := by
    split
    · exact foldl_ids_nodup _ hdstep _ _ List.nodup_nil
    · exact List.nodup_nil
  split
  · exact foldl_ids_nodup _ hsstep _ _ hd
  · exact hd

lemma p1Agg_ids_nodup (hexIndex : ℚ → ℚ → ℕ → CellId) (i : P1Input)
    (snap : ℤ) : (p1Agg hexIndex i snap).2.2.Nodup := by
  unfold p1Agg
  dsimp only
  apply foldl_ids_nodup
  · intro acc v
    exact Or.inr ⟨_, rfl⟩
  · apply foldl_ids_nodup
    · intro acc e
      exact Or.inr ⟨_, rfl⟩
    · exact List.nodup_nil

lemma rmapGet_eq_none_iff (m : List (CellId × ℚ)) (k : CellId) :
    rmapGet m k = none ↔ (m.find? fun p => decide (p.1 = k)) = none := by
  unfold rmapGet
  cases m.find? fun p => decide (p.1 = k) <;> simp

lemma rmapSet_of_not_mem (m : List (CellId × ℚ)) (k : CellId) (v : ℚ)
    (h : rmapGet m k = none) : rmapSet m k v = m ++ [(k, v)] := by
  unfold rmapSet
  rw [if_neg]
  rw [rmapGet_eq_none_iff] at h
  rw [h]
  simp

lemma rmapGet_append_single (m : List (CellId × ℚ)) (k j : CellId) (v : ℚ)
    (hm : rmapGet m j = none) (hkj : k ≠ j) :
    rmapGet (m ++ [(k, v)]) j = none := by
  rw [rmapGet_eq_none_iff] at hm ⊢
  induction m with
  | nil =>
    simp [List.find?, hkj]
  | cons a t ih =>
    rw [List.find?_cons] at hm
    split at hm
    · exact absurd hm (by simp)
    · rename_i hcond
      rw [List.cons_append, List.find?_cons, hcond]
      exact ih hm

lemma rmapGet_map_self (raw : CellId → ℚ) :
    ∀ ids : List CellId, ids.Nodup → ∀ id ∈ ids,
      rmapGet (ids.map fun k => (k, raw k)) id = some (raw id) := by
  intro ids
  induction ids with
  | nil => intro _ id hid; exact absurd hid (List.not_mem_nil id)
  | cons k t ih =>
    intro hnd id hid
    rw [List.map_cons]
    rcases List.mem_cons.1 hid with h1 | ht
    · subst h1
      unfold rmapGet
      rw [List.find?_cons_of_pos _ (by simp)]
      rfl
    · have hkid : ¬((k, raw k).1 = id) := by
        intro h
        have h2 : k = id := h
        have hk : k ∉ t := (List.nodup_cons.1 hnd).1
        rw [h2] at hk
        exact hk ht
      unfold rmapGet
      rw [List.find?_cons_of_neg _ (by simpa using hkid)]
      exact ih (List.nodup_cons.1 hnd).2 id ht

/-- The combined rawRatioMap/Welford loop decomposes into an association
list of the raw ratios and the Welford fold over the raw-ratio list. -/
lemma ratioStatStep_fold (dm sm : List (CellId × ℕ)) :
    ∀ (ids : List CellId) (rm0 : List (CellId × ℚ)) (st0 : ℚ × ℚ × ℕ),
      ids.Nodup → (∀ k ∈ ids, rmapGet rm0 k = none) →
      ids.foldl (ratioStatStep dm sm) (rm0, st0) =
        (rm0 ++ ids.map (fun k => (k, computeRawRatio (mapGet dm k) (mapGet sm k))),
         (ids.map fun k => computeRawRatio (mapGet dm k) (mapGet sm k)).foldl wStep st0) := by
  intro ids
  induction ids with
  | nil => intro rm0 st0 _ _; simp
  | cons k t ih =>
    intro rm0 st0 hnd hnone
    rw [List.foldl_cons, List.map_cons, List.map_cons, List.foldl_cons]
    have hstep : ratioStatStep dm sm (rm0, st0) k =
        (rm0 ++ [(k, computeRawRatio (mapGet dm k) (mapGet sm k))],
         wStep st0 (computeRawRatio (mapGet dm k) (mapGet sm k))) := by
      unfold ratioStatStep wStep computeRawRatio
      dsimp only
      rw [rmapSet_of_not_mem _ _ _ (hnone k (List.mem_cons_self k t))]
    rw [hstep, ih (rm0 ++ [(k, computeRawRatio (mapGet dm k) (mapGet sm k))])
      (wStep st0 (computeRawRatio (mapGet dm k) (mapGet sm k)))
      (List.nodup_cons.1 hnd).2 ?_]
    · rw [List.append_assoc]
      rfl
    · intro j hj
      have hkj : k ≠ j := by
        intro h
        have hk : k ∉ t := (List.nodup_cons.1 hnd).1
        rw [h] at hk
        exact hk hj
      exact rmapGet_append_single _ _ _ _ (hnone j (List.mem_cons_of_mem k hj)) hkj

lemma inner_fold_mem (active : List CellId) :
    ∀ (ns : List CellId) (s0 : List CellId) (x : CellId),
      (x ∈ ns.foldl (fun s n => if n ∈ active then s else addId s n) s0 ↔
        x ∈ s0 ∨ (x ∈ ns ∧ x ∉ active)) := by
  intro ns
  induction ns with
  | nil => simp
  | cons n t ih =>
    intro s0 x
    rw [List.foldl_cons]
    by_cases hn : n ∈ active
    · rw [if_pos hn, ih]
      constructor
      · rintro (h | h)
        · exact Or.inl h
        · exact Or.inr ⟨List.mem_cons_of_mem _ h.1, h.2⟩
      · rintro (h | ⟨hmem, hnact⟩)
        · exact Or.inl h
        · rcases List.mem_cons.1 hmem with h1 | h2
          · subst h1
            exact absurd hn hnact
          · exact Or.inr ⟨h2, hnact⟩
    · rw [if_neg hn, ih]
      constructor
      · rintro (h | h)
        · rcases (addId_mem s0 n x).1 h with h0 | h1
          · exact Or.inl h0
          · subst h1
            exact Or.inr ⟨List.mem_cons_self _ _, hn⟩
        · exact Or.inr ⟨List.mem_cons_of_mem _ h.1, h.2⟩
      · rintro (h | ⟨hmem, hnact⟩)
        · exact Or.inl ((addId_mem s0 n x).2 (Or.inl h))
        · rcases List.mem_cons.1 hmem with h1 | h2
          · subst h1
            exact Or.inl ((addId_mem s0 x x).2 (Or.inr rfl))
          · exact Or.inr ⟨h2, hnact⟩

lemma outer_fold_mem (gridDisk : CellId → Option (List CellId))
    (active : List CellId) :
    ∀ (l : List CellId) (s0 : List CellId) (x : CellId),
      (x ∈ l.foldl (fun s hexId =>
          match gridDisk hexId with
          | none => s
          | some neighbors =>
            neighbors.foldl (fun s n => if n ∈ active then s else addId s n) s)
        s0 ↔
        x ∈ s0 ∨ ((∃ a ∈ l, ∃ ns, gridDisk a = some ns ∧ x ∈ ns) ∧ x ∉ active)) := by
  intro l
  induction l with
  | nil => simp
  | cons a t ih =>
    intro s0 x
    rw [List.foldl_cons]
    cases hga : gridDisk a with
    | none =>
      dsimp only
      rw [ih]
      simp only [List.exists_mem_cons_iff, hga]
      constructor
      · rintro (h | h)
        · exact Or.inl h
        · exact Or.inr ⟨Or.inr h.1, h.2⟩
      · rintro (h | ⟨h1 | h2, hnact⟩)
        · exact Or.inl h
        · obtain ⟨ns, hns, _⟩ := h1
          exact absurd hns (by simp)
        · exact Or.inr ⟨h2, hnact⟩
    | some ns =>
      dsimp only
      rw [ih, inner_fold_mem]
      simp only [List.exists_mem_cons_iff, hga]
      constructor
      · rintro ((h | h) | h)
        · exact Or.inl h
        · exact Or.inr ⟨Or.inl ⟨ns, rfl, h.1⟩, h.2⟩
        · exact Or.inr ⟨Or.inr h.1, h.2⟩
      · rintro (h | ⟨h1 | h2, hnact⟩)
        · exact Or.inl (Or.inl h)
        · obtain ⟨ns2, hns2, hxns2⟩ := h1
          have hns2' : ns2 = ns := by
            injection hns2 with h
            exact h.symm
          subst hns2'
          exact Or.inl (Or.inr ⟨hxns2, hnact⟩)
        · exact Or.inr ⟨h2, hnact⟩

/-- C8: the inactive halo of the Snapshot Composer consists of exactly the
ring-1 neighbors (successfully returned by gridDisk) of active cells that
are not themselves active, with all-zero values; a gridDisk failure (none)
at one cell only omits that cell's neighbors and never propagates, which is
what the membership characterisation quantified over every partial gridDisk
expresses. -/
theorem C8_halo (gridDisk : CellId → Option (List CellId))
    (cellToLatLng : CellId → ℚ × ℚ) (activeHexIds : List CellId) :
    (∀ x : CellId,
      ((∃ h ∈ p1Inactive gridDisk cellToLatLng activeHexIds, h.hexId = x) ↔
        ((∃ a ∈ activeHexIds, ∃ ns, gridDisk a = some ns ∧ x ∈ ns) ∧
          x ∉ activeHexIds))) ∧
    ∀ h ∈ p1Inactive gridDisk cellToLatLng activeHexIds,
      h.ratio = 0 ∧ h.demand = 0 ∧ h.supply = 0 ∧ h.finalPrice = 0 := by
  constructor
  · intro x
    unfold p1Inactive
    dsimp only
    have hmem := outer_fold_mem gridDisk activeHexIds activeHexIds [] x
    constructor
    · rintro ⟨h, hm, rfl⟩
      obtain ⟨id, hid, rfl⟩ := List.mem_map.1 hm
      have h2 := hmem.1 hid
      simpa using h2
    · intro hx
      have hxS := hmem.2 (Or.inr hx)
      exact ⟨_, List.mem_map.2 ⟨x, hxS, rfl⟩, rfl⟩
  · intro h hmem
    unfold p1Inactive at hmem
    obtain ⟨id, _, rfl⟩ := List.mem_map.1 hmem
    exact ⟨rfl, rfl, rfl, rfl⟩

lemma filterMap_some_map {β γ : Type} (g : β → γ) :
    ∀ l : List β, (l.filterMap fun x => some (g x)) = l.map g := by
  intro l
  induction l with
  | nil => rfl
  | cons a t ih => simp [List.filterMap_cons, ih]

/-- C7 (amended): when the uploaded supply dataset is nonempty and the
uploaded demand dataset is empty, the distribution pipeline is in supply
mode and emits each active cell's raw supply count with no transform; the
part_001 map pipeline, whose supply-only branch is absent, instead emits
ratio 0 for every active cell. -/
theorem C7_supply_only_mode (hexIndex : ℚ → ℚ → ℕ → CellId)
    (cellToLatLng : CellId → ℚ × ℚ) (i : DistInput) (j : P1Input) (snap : ℤ)
    (hdi : i.demandEvents = []) (hsi : i.supplyVehicles ≠ [])
    (hdj : j.demandEvents = []) :
    distMode i = DistMode.supply ∧
    computeSnapshotValues hexIndex i snap =
      (dvAgg hexIndex i snap).2.2.map
        (fun hexId => ((mapGet (dvAgg hexIndex i snap).2.1 hexId : ℕ) : ℝ)) ∧
    ∀ h ∈ p1Active hexIndex cellToLatLng j snap, h.ratio = 0 := by
  have hhd : hasDemand i = false := by
    unfold hasDemand
    rw [hdi]
    rfl
  have hhs : hasSupply i = true := by
    unfold hasSupply
    simpa [List.length_pos] using hsi
  have hhb : hasBoth i = false := by
    unfold hasBoth
    rw [hhd]
    rfl
  have hcsp : canShowPrice i = false := by
    unfold canShowPrice
    rw [hhb]
    rfl
  have hmode : distMode i = DistMode.supply := by
    simp [distMode, hcsp, hhb, hhd, hhs]
  refine ⟨hmode, ?_, ?_⟩
  · unfold computeSnapshotValues
    dsimp only
    by_cases hids : (dvAgg hexIndex i snap).2.2.length = 0
    · rw [if_pos hids]
      rw [List.length_eq_zero] at hids
      rw [hids]
      rfl
    · rw [if_neg hids, hhb, if_pos rfl]
      simp only [hmode]
      exact filterMap_some_map _ _
  · intro h hm
    have hfd : p1FilteredDemand j snap = [] := by
      unfold p1FilteredDemand
      rw [hdj]
      rfl
    have hdm : (p1Agg hexIndex j snap).1 = [] := by
      unfold p1Agg
      dsimp only
      rw [hfd]
      rfl
    unfold p1Active at hm
    dsimp only at hm
    rw [hdm] at hm
    obtain ⟨id, hid, rfl⟩ := List.mem_map.1 hm
    simp

/-- C7 witness: a one-record supply upload with no demand upload, at a
snapshot where the record is active. -/
theorem C7_supply_only_mode_witness :
    distMode ⟨[], [⟨0, 10, 1, 1⟩], [], 0, 60, 9, false⟩ = DistMode.supply ∧
    computeSnapshotValues (fun _ _ _ => 7)
        ⟨[], [⟨0, 10, 1, 1⟩], [], 0, 60, 9, false⟩ 0 =
      (dvAgg (fun _ _ _ => 7) ⟨[], [⟨0, 10, 1, 1⟩], [], 0, 60, 9, false⟩ 0).2.2.map
        (fun hexId =>
          ((mapGet (dvAgg (fun _ _ _ => 7)
              ⟨[], [⟨0, 10, 1, 1⟩], [], 0, 60, 9, false⟩ 0).2.1 hexId : ℕ) : ℝ)) ∧
    ∀ h ∈ p1Active (fun _ _ _ => 7) (fun _ => (0, 0))
        ⟨[], [⟨0, 10, 1, 1⟩], [], 0, 60, 9, false⟩ 0, h.ratio = 0 :=
  C7_supply_only_mode (fun _ _ _ => 7) (fun _ => (0, 0))
    ⟨[], [⟨0, 10, 1, 1⟩], [], 0, 60, 9, false⟩
    ⟨[], [⟨0, 10, 1, 1⟩], [], 0, 60, 9, false⟩ 0 rfl (by simp) rfl

/-- C7 counterexample: with an empty demand upload and two supply records in
one cell active at the snapshot, the part_001 pipeline emits ratio 0 for the
cell whose raw supply count is 2, so the emitted value is not the supply
count as the claim states. -/
theorem C7_counterexample :
    ((p1Active (fun _ _ _ => 7) (fun _ => (0, 0))
        ⟨[], [⟨0, 10, 1, 1⟩, ⟨0, 10, 1, 1⟩], [], 0, 60, 9, false⟩ 0).map P1Hex.ratio =
      [(0 : ℝ)]) ∧
    ((p1Active (fun _ _ _ => 7) (fun _ => (0, 0))
        ⟨[], [⟨0, 10, 1, 1⟩, ⟨0, 10, 1, 1⟩], [], 0, 60, 9, false⟩ 0).map P1Hex.supply =
      [2]) ∧
    (0 : ℝ) ≠ ((2 : ℕ) : ℝ) := by
  refine ⟨?_, ?_, by norm_num⟩ <;>
    simp [p1Active, p1Agg, p1FilteredDemand, p1AvailableSupply, mapGet, bump,
      addId, ratioStatStep, rmapGet, rmapSet, computeRawRatio, computeZScore,
      List.filter]

/-- C2 (amended): in both-data mode with normalization enabled, each value
emitted by the distribution pipeline equals (rawRatio - mean)/stdDev when
stdDev > 0, where mean and the sample standard deviation (n-1 denominator,
0 when n is at most 1) are taken over the snapshot's raw ratios exactly as
the spec writes them, and equals the raw ratio unchanged when stdDev = 0;
the HexagonMap computeZScore instead returns 0 whenever stdDev = 0, so the
map pipeline emits 0 rather than the raw ratio there. -/
theorem C2_zscore_normalisation (hexIndex : ℚ → ℚ → ℕ → CellId) (i : DistInput)
    (snap : ℤ) (hboth : hasBoth i = true) (hnorm : i.normalizationEnabled = true)
    (hmode : distMode i = DistMode.coefficient) :
    (computeSnapshotValues hexIndex i snap =
      (snapshotRaws hexIndex i snap).map fun x =>
        if 0 < specStdDev (snapshotRaws hexIndex i snap) then
          (((x : ℚ) : ℝ) - ((specMean (snapshotRaws hexIndex i snap) : ℚ) : ℝ)) /
            specStdDev (snapshotRaws hexIndex i snap)
        else ((x : ℚ) : ℝ)) ∧
    ∀ value mean : ℚ, computeZScore value mean 0 = 0 := by
  refine ⟨?_, fun value mean => by unfold computeZScore; rw [if_pos rfl]⟩
  have hnd := dvAgg_ids_nodup hexIndex i snap
  have hfold := ratioStatStep_fold (dvAgg hexIndex i snap).1
    (dvAgg hexIndex i snap).2.1 (dvAgg hexIndex i snap).2.2 []
    ((0 : ℚ), (0 : ℚ), (0 : ℕ)) hnd (fun k _ => rfl)
  rw [List.nil_append] at hfold
  have hw : ((dvAgg hexIndex i snap).2.2.map fun k =>
        computeRawRatio (mapGet (dvAgg hexIndex i snap).1 k)
          (mapGet (dvAgg hexIndex i snap).2.1 k)).foldl wStep
        ((0 : ℚ), (0 : ℚ), (0 : ℕ)) =
      (specMean ((dvAgg hexIndex i snap).2.2.map fun k =>
          computeRawRatio (mapGet (dvAgg hexIndex i snap).1 k)
            (mapGet (dvAgg hexIndex i snap).2.1 k)),
       specSumSqDev ((dvAgg hexIndex i snap).2.2.map fun k =>
          computeRawRatio (mapGet (dvAgg hexIndex i snap).1 k)
            (mapGet (dvAgg hexIndex i snap).2.1 k)),
       ((dvAgg hexIndex i snap).2.2.map fun k =>
          computeRawRatio (mapGet (dvAgg hexIndex i snap).1 k)
            (mapGet (dvAgg hexIndex i snap).2.1 k)).length) := welford_eq _
  rw [hw] at hfold
  have hraws : snapshotRaws hexIndex i snap =
      (dvAgg hexIndex i snap).2.2.map fun k =>
        computeRawRatio (mapGet (dvAgg hexIndex i snap).1 k)
          (mapGet (dvAgg hexIndex i snap).2.1 k) := rfl
  rw [hraws]
  unfold computeSnapshotValues
  dsimp only
  by_cases hids : (dvAgg hexIndex i snap).2.2.length = 0
  · rw [if_pos hids]
    rw [List.length_eq_zero] at hids
    rw [hids]
    rfl
  · rw [if_neg hids, hboth, if_neg (by simp), hfold]
    dsimp only
    rw [List.map_map]
    refine List.map_congr_left ?_
    intro id hid
    dsimp only [Function.comp]
    rw [rmapGet_map_self _ _ hnd id hid, Option.getD_some, hmode,
      if_neg (by simp), hnorm]
    have hstd : (if 1 < ((dvAgg hexIndex i snap).2.2.map fun k =>
          computeRawRatio (mapGet (dvAgg hexIndex i snap).1 k)
            (mapGet (dvAgg hexIndex i snap).2.1 k)).length then
        Real.sqrt (((specSumSqDev ((dvAgg hexIndex i snap).2.2.map fun k =>
            computeRawRatio (mapGet (dvAgg hexIndex i snap).1 k)
              (mapGet (dvAgg hexIndex i snap).2.1 k)) /
          ((((dvAgg hexIndex i snap).2.2.map fun k =>
            computeRawRatio (mapGet (dvAgg hexIndex i snap).1 k)
              (mapGet (dvAgg hexIndex i snap).2.1 k)).length : ℚ) - 1)) : ℚ) : ℝ)
      else 0) = specStdDev ((dvAgg hexIndex i snap).2.2.map fun k =>
        computeRawRatio (mapGet (dvAgg hexIndex i snap).1 k)
          (mapGet (dvAgg hexIndex i snap).2.1 k)) := rfl
    rw [hstd]
    by_cases hσ : 0 < specStdDev ((dvAgg hexIndex i snap).2.2.map fun k =>
        computeRawRatio (mapGet (dvAgg hexIndex i snap).1 k)
          (mapGet (dvAgg hexIndex i snap).2.1 k))
    · rw [if_pos ⟨rfl, hσ⟩, if_pos hσ]
    · rw [if_neg (fun h => hσ h.2), if_neg hσ]

/-- C2 witness: one demand event and one supply record sharing a cell, with
normalization enabled and no pricing inputs (coefficient mode). -/
theorem C2_zscore_normalisation_witness :
    (computeSnapshotValues (fun _ _ _ => 7)
        ⟨[⟨0, 1, 1⟩], [⟨0, 10, 1, 1⟩], [], 0, 60, 9, true⟩ 0 =
      (snapshotRaws (fun _ _ _ => 7)
          ⟨[⟨0, 1, 1⟩], [⟨0, 10, 1, 1⟩], [], 0, 60, 9, true⟩ 0).map fun x =>
        if 0 < specStdDev (snapshotRaws (fun _ _ _ => 7)
            ⟨[⟨0, 1, 1⟩], [⟨0, 10, 1, 1⟩], [], 0, 60, 9, true⟩ 0) then
          (((x : ℚ) : ℝ) - ((specMean (snapshotRaws (fun _ _ _ => 7)
              ⟨[⟨0, 1, 1⟩], [⟨0, 10, 1, 1⟩], [], 0, 60, 9, true⟩ 0) : ℚ) : ℝ)) /
            specStdDev (snapshotRaws (fun _ _ _ => 7)
              ⟨[⟨0, 1, 1⟩], [⟨0, 10, 1, 1⟩], [], 0, 60, 9, true⟩ 0)
        else ((x : ℚ) : ℝ)) ∧
    ∀ value mean : ℚ, computeZScore value mean 0 = 0 :=
  C2_zscore_normalisation (fun _ _ _ => 7)
    ⟨[⟨0, 1, 1⟩], [⟨0, 10, 1, 1⟩], [], 0, 60, 9, true⟩ 0 (by decide) rfl (by decide)

/-- C2 counterexample: two demand events and one supply record in one cell
with normalization enabled: the snapshot has a single raw ratio 2, so
stdDev = 0, and the part_001 pipeline emits 0 instead of the raw ratio 2
that the claim requires when stdDev = 0. -/
theorem C2_counterexample :
    ((p1Active (fun _ _ _ => 7) (fun _ => (0, 0))
        ⟨[⟨0, 1, 1⟩, ⟨0, 1, 1⟩], [⟨0, 10, 1, 1⟩], [], 0, 60, 9, true⟩ 0).map
        P1Hex.ratio = [(0 : ℝ)]) ∧
    computeRawRatio 2 1 = 2 ∧
    (0 : ℝ) ≠ ((2 : ℚ) : ℝ) := by
  refine ⟨?_, by norm_num [computeRawRatio], by norm_num⟩
  norm_num [p1Active, p1Agg, p1FilteredDemand, p1AvailableSupply, mapGet, bump,
    addId, ratioStatStep, rmapGet, rmapSet, computeRawRatio, computeZScore,
    List.filter]

/-- C1: both uploaded datasets are nonempty, but at a snapshot where the
temporal filter leaves no active supply record the part_001 / HexagonMap
pipeline computes hasBothData from the filtered per-instant maps and falls
into demand-only mode: the cell with two windowed demand events is emitted
with value 2, not the both-data raw ratio computeRawRatio 2 0 = 1 that the
claim (and the spec invariant) requires. -/
theorem C1_mode_decision_bug :
    (⟨[⟨0, 1, 1⟩, ⟨0, 1, 1⟩], [⟨100, 200, 1, 1⟩], [], 0, 60, 9, false⟩ :
      P1Input).demandEvents ≠ [] ∧
    (⟨[⟨0, 1, 1⟩, ⟨0, 1, 1⟩], [⟨100, 200, 1, 1⟩], [], 0, 60, 9, false⟩ :
      P1Input).supplyVehicles ≠ [] ∧
    ((p1Active (fun _ _ _ => 7) (fun _ => (0, 0))
        ⟨[⟨0, 1, 1⟩, ⟨0, 1, 1⟩], [⟨100, 200, 1, 1⟩], [], 0, 60, 9, false⟩ 0).map
        P1Hex.ratio = [(2 : ℝ)]) ∧
    (2 : ℝ) ≠ ((computeRawRatio 2 0 : ℚ) : ℝ) := by
  refine ⟨by simp, by simp, ?_, by norm_num [computeRawRatio]⟩
  norm_num [p1Active, p1Agg, p1FilteredDemand, p1AvailableSupply, mapGet, bump,
    addId, ratioStatStep, rmapGet, rmapSet, computeRawRatio, computeZScore,
    List.filter]

/-- C9 witness: the instant 900000 of the 37-minute example lies inside the
clamped range. -/
theorem C9_sample_instants_invariants_witness :
    (0 : ℤ) ≤ 900000 ∧ (900000 : ℤ) ≤ 2220000 :=
  (C9_sample_instants_invariants 0 2220000 15).2.2 900000 (by decide)

/-- C8 witness: with one active cell whose ring contains cells 1 and 2, the
non-active neighbor 2 appears in the halo. -/
theorem C8_halo_witness :
    ∃ h ∈ p1Inactive (fun _ => some [1, 2]) (fun _ => (0, 0)) [1], h.hexId = 2 :=
  ((C8_halo (fun _ => some [1, 2]) (fun _ => (0, 0)) [1]).1 2).2
    ⟨⟨1, by simp, [1, 2], rfl, by simp⟩, by simp⟩

end HexNorm
